import Mathlib

/-!
Verification of the storey streaming dataflow core (`storey/flow.py`).

The development shallowly embeds the parts of the source the claims are
about: the pipeline builder `build_flow`, the fan-out/termination protocol
of `Flow._do_downstream`, the transform nodes (`Map`, `Filter`, `FlatMap`),
the terminal `Reduce` accumulator, the `Source` worker loop and its
deferred failure reporting, and the `JoinWithTable` response decoding and
worker loop.  Python exceptions are modelled with `Except Unit` / `Bool`
error flags, user functions are explicit Lean functions, and the two
external Python builtins reached by the join decoder (`int`, `float`)
are modelled on exactly the domain the code can call them on.
-/

/-! ## Pipeline builder (`build_flow`)

A nested pipeline definition is a sequence whose entries are either nodes
(identified here by a `Nat` id) or nested sequences (branch points). -/

/-- An entry of a nested pipeline definition: a node or a nested sequence. -/
inductive Step where
  | node (id : Nat)
  | seq (steps : List Step)
deriving Repr

/-- A built pipeline tree: a node id together with its outlets in
registration order (the order `Flow.to` was called). -/
inductive NodeTree where
  | mk (id : Nat) (outlets : List NodeTree)
deriving Repr

/-- The id of the root of a built tree. -/
def NodeTree.id : NodeTree → Nat
  | .mk i _ => i

/-- The outlets of the root of a built tree, in registration order. -/
def NodeTree.outlets : NodeTree → List NodeTree
  | .mk _ o => o

mutual
/-- Embedding of `build_flow` (flow.py:310-320).  `cur_step = steps[0]`
on an empty list raises `IndexError`, modelled as `none`; a sequence whose
first entry is itself a sequence is likewise invalid (the Python code
would call `.to` on a list object).  Otherwise the loop body is
`chainLoop`. -/
def build_flow : List Step → Option NodeTree
  | [] => none
  | .seq _ :: _ => none
  | .node i :: rest => chainLoop i [] rest

/-- The loop of `build_flow`: `cur` is `cur_step`, `acc` holds (reversed)
the outlets appended to `cur` so far.  A list entry recursively builds a
subtree and appends its root as an outlet of `cur` (`cur` unchanged); a
node entry is appended as an outlet and becomes the new `cur`, so the
remaining entries grow that node's subtree. -/
def chainLoop (cur : Nat) (acc : List NodeTree) : List Step → Option NodeTree
  | [] => some (.mk cur acc.reverse)
  | .seq s :: rest =>
      match build_flow s with
      | none => none
      | some t => chainLoop cur (t :: acc) rest
  | .node j :: rest =>
      match chainLoop j [] rest with
      | none => none
      | some t => some (.mk cur (acc.reverse ++ [t]))
end

mutual
/-- Written from the spec's words, not the source: walk the top-level
sequence in order chaining node to node; a nested sequence's root becomes
an additional outlet of the current node and chaining continues from that
same node; the first node of the sequence is returned. -/
def specBuild : List Step → Option NodeTree
  | [] => none
  | .seq _ :: _ => none
  | .node i :: rest => specChain i rest

/-- Spec-side chaining: the tree grown at the current node `cur` from the
remaining entries.  A nested sequence contributes its root as an outlet of
`cur` ahead of the outlets contributed by later entries; a node entry ends
`cur`'s outlet list with that node's own subtree. -/
def specChain (cur : Nat) : List Step → Option NodeTree
  | [] => some (.mk cur [])
  | .seq s :: rest =>
      match specBuild s, specChain cur rest with
      | some t, some u => some (.mk cur (t :: u.outlets))
      | _, _ => none
  | .node j :: rest =>
      match specChain j rest with
      | some t => some (.mk cur [t])
      | none => none
end

/-- Prefix extra outlets onto the root of a tree. -/
def NodeTree.withPre (pre : List NodeTree) : NodeTree → NodeTree
  | .mk i outs => .mk i (pre ++ outs)

/-! ## Nodes and the fan-out / termination protocol

`PNode α β` embeds a tree of pipeline nodes: the transform nodes `Map`,
`Filter` and `FlatMap` (each holding its user function, its
`termination_result_fn` and its outlets), the terminal `Reduce` (holding
its accumulator and combine function), and `JoinWithTable`, which
overrides `do` and therefore has its own termination handling.  Elements
have type `α`; termination results are `Option β` (`none` models Python
`None`, in particular the default `termination_result_fn` returns
`None`).  A user function that raises is modelled by returning
`Except.error ()`. -/

/-- The observable state of the JoinWithTable background worker task. -/
inductive WorkerState where
  | running
  | doneOk
  | doneExc
deriving Repr, DecidableEq

/-- A pipeline node below the source.  A `join` node carries the state
of its background worker task and the outcome of awaiting that worker
once the termination marker has been enqueued (`Except.ok ()` when the
worker drains its queue and exits normally, `Except.error ()` when it
raises while draining); the per-element job pipeline itself is modelled
separately by `joinWorkerRun`. -/
inductive PNode (α β : Type) where
  | map (f : α → Except Unit α)
      (comb : Option β → Option β → Option β) (outs : List (PNode α β))
  | filter (f : α → Except Unit Bool)
      (comb : Option β → Option β → Option β) (outs : List (PNode α β))
  | flatMap (f : α → Except Unit (List α))
      (comb : Option β → Option β → Option β) (outs : List (PNode α β))
  | reduce (acc : β) (f : β → α → Except Unit β)
  | join (ws : WorkerState) (drain : Except Unit Unit)
      (outs : List (PNode α β))

mutual
/-- Structural size of a node tree; the `reduce` accumulator and the
function fields do not contribute, so processing elements preserves it. -/
def psize {α β : Type} : PNode α β → Nat
  | .map _ _ outs => 1 + psizeList outs
  | .filter _ _ outs => 1 + psizeList outs
  | .flatMap _ _ outs => 1 + psizeList outs
  | .reduce _ _ => 1
  | .join _ _ outs => 1 + psizeList outs

/-- Structural size of a list of node trees. -/
def psizeList {α β : Type} : List (PNode α β) → Nat
  | [] => 0
  | n :: ns => psize n + psizeList ns
end

/-- The outlets of a node, in registration order. -/
def PNode.outlets {α β : Type} : PNode α β → List (PNode α β)
  | .map _ _ outs => outs
  | .filter _ _ outs => outs
  | .flatMap _ _ outs => outs
  | .reduce _ _ => []
  | .join _ _ outs => outs

/-- The `termination_result_fn` of a node (`Reduce` and `JoinWithTable`
never use one on this path; the `Flow.__init__` default returns
`None`). -/
def PNode.comb {α β : Type} : PNode α β → (Option β → Option β → Option β)
  | .map _ c _ => c
  | .filter _ c _ => c
  | .flatMap _ c _ => c
  | .reduce _ _ => fun _ _ => none
  | .join _ _ _ => fun _ _ => none

mutual
/-- Embedding of `do(element)` for the termination marker.  `Reduce.do`
returns the locally held accumulator (flow.py:185-187); `Map`, `Filter`
and `FlatMap` forward the marker through `Flow._do_downstream`
(flow.py:47-54), which is `termDispatch` over their outlets;
`JoinWithTable.do` (flow.py:287-297) never calls `_do_downstream` with
the marker: after the done-check (a completed worker makes the call
raise) it enqueues the marker and awaits the worker, which breaks out of
its loop, so the call returns `None` — its outlets are not consulted. -/
def doTerm {α β : Type} : PNode α β → Except Unit (Option β)
  | .map _ comb outs => termDispatch comb outs
  | .filter _ comb outs => termDispatch comb outs
  | .flatMap _ comb outs => termDispatch comb outs
  | .reduce b _ => .ok (some b)
  | .join ws drain _ =>
      match ws with
      | .doneExc => .error ()
      | .doneOk => .error ()
      | .running =>
          match drain with
          | .error e => .error e
          | .ok _ => .ok none

/-- The termination branch of `Flow._do_downstream`:
`self._outlets[0].do(...)` raises `IndexError` on an empty outlet list
(modelled as `Except.error ()`); otherwise the first outlet's result
seeds the sequential fold `termFold` over the remaining outlets. -/
def termDispatch {α β : Type}
    (comb : Option β → Option β → Option β) :
    List (PNode α β) → Except Unit (Option β)
  | [] => .error ()
  | o :: os =>
      match doTerm o with
      | .error e => .error e
      | .ok r => termFold comb r os

/-- The loop `for i in range(1, len(self._outlets))` of
`Flow._do_downstream`: folds each further outlet's termination result
into the accumulated one with `termination_result_fn(accumulated, next)`,
in registration order. -/
def termFold {α β : Type} (comb : Option β → Option β → Option β)
    (r : Option β) : List (PNode α β) → Except Unit (Option β)
  | [] => .ok r
  | o :: os =>
      match doTerm o with
      | .error e => .error e
      | .ok ro => termFold comb (comb r ro) os
end

mutual
/-- Embedding of `do(element)` for an ordinary element.  `Map` forwards
the function's result, `Filter` forwards the original element when the
result is truthy, `FlatMap` forwards each item of the result in order via
`doItems`, `Reduce` folds the element into its accumulator
(flow.py:149-192).  A `join` node with a running worker fires the lookup
request and enqueues the job, forwarding nothing downstream
synchronously — the worker's pipelined forwarding is modelled separately
by `joinWorkerRun`; with a completed worker the call raises
(flow.py:287-307).  The boolean is the raised-exception flag; the result
carries a proof that processing preserves the tree's structural size,
which justifies termination of the `FlatMap` item loop. -/
def doData {α β : Type} (n : PNode α β) (x : α) :
    { r : PNode α β × Bool // psize r.1 = psize n } :=
  match n with
  | .map f comb outs =>
      match f x with
      | .error _ => ⟨(.map f comb outs, true), rfl⟩
      | .ok y =>
          match doDataList outs y with
          | ⟨(outs', e), hp⟩ => ⟨(.map f comb outs', e), by simp [psize, hp]⟩
  | .filter f comb outs =>
      match f x with
      | .error _ => ⟨(.filter f comb outs, true), rfl⟩
      | .ok keep =>
          if keep then
            match doDataList outs x with
            | ⟨(outs', e), hp⟩ => ⟨(.filter f comb outs', e), by simp [psize, hp]⟩
          else ⟨(.filter f comb outs, false), rfl⟩
  | .flatMap f comb outs =>
      match f x with
      | .error _ => ⟨(.flatMap f comb outs, true), rfl⟩
      | .ok items =>
          match doItems outs items with
          | ⟨(outs', e), hp⟩ => ⟨(.flatMap f comb outs', e), by simp [psize, hp]⟩
  | .reduce b f =>
      match f b x with
      | .error _ => ⟨(.reduce b f, true), rfl⟩
      | .ok b' => ⟨(.reduce b' f, false), rfl⟩
  | .join ws drain outs =>
      match ws with
      | .running => ⟨(.join .running drain outs, false), rfl⟩
      | .doneOk => ⟨(.join .doneOk drain outs, true), rfl⟩
      | .doneExc => ⟨(.join .doneExc drain outs, true), rfl⟩
termination_by (3 * psize n, 0)
decreasing_by
  all_goals apply Prod.Lex.left
  all_goals simp [psize, psizeList]
  all_goals omega

/-- The data branch of `Flow._do_downstream` (flow.py:55-61): dispatch
the element to every outlet (the created tasks all run; awaiting them in
order surfaces a failure of any of them to the caller). -/
def doDataList {α β : Type} (ns : List (PNode α β)) (x : α) :
    { r : List (PNode α β) × Bool // psizeList r.1 = psizeList ns } :=
  match ns with
  | [] => ⟨([], false), rfl⟩
  | n :: rest =>
      match doData n x, doDataList rest x with
      | ⟨(n', e1), h1⟩, ⟨(rest', e2), h2⟩ =>
          ⟨(n' :: rest', e1 || e2), by simp [psizeList, h1, h2]⟩
termination_by (3 * psizeList ns + 1, 0)
decreasing_by
  · apply Prod.Lex.left
    simp [psizeList]
    omega
  · apply Prod.Lex.left
    have hn : 0 < psize n := by cases n <;> simp [psize]
    simp [psizeList]
    omega

/-- The loop of `FlatMap._do_internal` (flow.py:168-171): forward each
result item to the outlets, one at a time, in order; a raise while
forwarding an item aborts the loop, so no later item is forwarded. -/
def doItems {α β : Type} (ns : List (PNode α β)) (items : List α) :
    { r : List (PNode α β) × Bool // psizeList r.1 = psizeList ns } :=
  match items with
  | [] => ⟨(ns, false), rfl⟩
  | it :: its =>
      match doDataList ns it with
      | ⟨(ns', e), hp⟩ =>
          if e then ⟨(ns', true), hp⟩
          else
            match doItems ns' its with
            | ⟨(ns'', e2), h2⟩ => ⟨(ns'', e2), h2.trans hp⟩
termination_by (3 * psizeList ns + 2, items.length)
decreasing_by
  · apply Prod.Lex.left
    omega
  · have hp' : psizeList ns' = psizeList ns := hp
    rw [hp']
    exact Prod.Lex.right _ (Nat.lt_succ_self _)
end

/-- `do(element)` on a node, dropping the size-preservation evidence. -/
def runData {α β : Type} (n : PNode α β) (x : α) : PNode α β × Bool :=
  (doData n x).val

/-- Data dispatch to a list of outlets, dropping the evidence. -/
def runDataList {α β : Type} (ns : List (PNode α β)) (x : α) :
    List (PNode α β) × Bool :=
  (doDataList ns x).val

/-- The `FlatMap` item loop, dropping the evidence. -/
def runItems {α β : Type} (ns : List (PNode α β)) (items : List α) :
    List (PNode α β) × Bool :=
  (doItems ns items).val

/-! ## Termination dispatch (C2, C9) -/

/-- Written from the spec's words, not the source: on termination the
node awaits outlet 0's result, then folds in outlet 1's, outlet 2's, ...
in registration order using combine(accumulated, next), and returns the
final folded result. -/
def specTermSeq {α β : Type} (comb : Option β → Option β → Option β)
    (o : PNode α β) (os : List (PNode α β)) : Except Unit (Option β) :=
  (doTerm o).bind fun r0 =>
    os.foldlM (fun acc n => (doTerm n).map (fun r => comb acc r)) r0

/-! ## Feeding a stream of elements (the Source worker's repeated
dispatch), used by C4 and C5 -/

/-- Feed elements one at a time to a node, stopping at the first raise
(the Source worker stops its loop on an exception, flow.py:97-102). -/
def feedAll {α β : Type} (n : PNode α β) : List α → PNode α β × Bool
  | [] => (n, false)
  | x :: xs =>
      match runData n x with
      | (n', true) => (n', true)
      | (n', false) => feedAll n' xs

/-! ## FlatMap ordering and fail-fast (C5) -/

/-- A `Reduce` instance used as an observer: it appends every element it
receives to its accumulator, so its state records the elements forwarded
to it in arrival order. -/
def recorder {α : Type} (L : List α) : PNode α (List α) :=
  .reduce L (fun l a => Except.ok (l ++ [a]))

/-! ## Source worker loop and deferred failure reporting (C3) -/

/-- An entry of the Source's bounded queue: an ordinary element or the
termination marker (`_termination_obj`). -/
inductive QElem (α : Type) where
  | data (a : α)
  | term

/-- The observable outcome of the Source worker loop on a schedule of
queue entries: the outlets' final state, whether `self._ex` was recorded,
the termination result cell (`some v` once `set_result(v)` ran), the
entries still pending in the queue, and whether the loop exited. -/
structure SrcResult (α β : Type) where
  outlets : List (PNode α β)
  exc : Bool
  cell : Option (Option β)
  remaining : List (QElem α)
  stopped : Bool

/-- Embedding of `Source._run_loop` (flow.py:87-104): pull entries in
FIFO order and run `_do_downstream` on each.  If processing raises, the
worker records the exception, drains at most one further pending entry,
resolves the termination result cell with no value and stops.  On the
termination marker it resolves the cell with the outlets' folded
termination result and stops.  An exhausted schedule without a
termination marker leaves the worker blocked on `self._q.get`. -/
def runLoop {α β : Type} (comb : Option β → Option β → Option β)
    (outs : List (PNode α β)) : List (QElem α) → SrcResult α β
  | [] => ⟨outs, false, none, [], false⟩
  | .data a :: rest =>
      match runDataList outs a with
      | (outs', true) => ⟨outs', true, some none, rest.tail, true⟩
      | (outs', false) => runLoop comb outs' rest
  | .term :: rest =>
      match termDispatch comb outs with
      | .error _ => ⟨outs, true, some none, rest.tail, true⟩
      | .ok tr => ⟨outs, false, some tr, rest, true⟩

/-- Embedding of `Source._emit` (flow.py:114-117): check the recorded
failure, enqueue (after blocking until there is room), check again.  The
two flags are the values of `self._ex` observed at the two check points
(the worker may record a failure in between).  The boolean result is
whether a `FlowException` is raised to the caller. -/
def emitStep {α : Type} (excBefore : Bool) (q : List (QElem α))
    (x : QElem α) (excAfter : Bool) : List (QElem α) × Bool :=
  if excBefore then (q, true)
  else if excAfter then (q ++ [x], true)
  else (q ++ [x], false)

/-- Embedding of `raise_error_or_return_termination_result`
(flow.py:125-127) once the worker stopped: raise `FlowException` if a
failure was recorded, else return the termination result cell's value. -/
def awaitTermination {α β : Type} (r : SrcResult α β) :
    Except Unit (Option β) :=
  if r.exc then .error () else .ok (r.cell.getD none)

/-- Dispatch a list of elements to the Source's outlets one at a time,
stopping at the first raise; the data-element part of the worker loop. -/
def feedList {α β : Type} (ns : List (PNode α β)) :
    List α → List (PNode α β) × Bool
  | [] => (ns, false)
  | x :: xs =>
      match runDataList ns x with
      | (ns', true) => (ns', true)
      | (ns', false) => feedList ns' xs

/-- A reduce function used by the C3 witness: raises on the element 2. -/
def failOn2 (b a : Int) : Except Unit Int :=
  if a = 2 then .error () else .ok (b + a)

/-! ## JoinWithTable: response decoding and worker (C6, C7, C10) -/

/-- A JSON primitive appearing as a type tag's payload in a get-item
response: a string or a boolean. -/
inductive JPrim where
  | jstr (s : String)
  | jbool (b : Bool)
deriving Repr, DecidableEq

/-- A decoded attribute value: `raw` passed through unchanged
(string/boolean tags), `pint` decoded by integer parsing, `pfloat`
decoded by floating-point parsing (carrying the token the external float
parser produced). -/
inductive PVal where
  | raw (v : JPrim)
  | pint (n : Int)
  | pfloat (t : String)
deriving Repr, DecidableEq

/-- The pattern `_non_int_char_pattern = [^-0-9]` (flow.py:219): true iff
the string contains a character other than a minus sign or a digit. -/
def hasNonIntChar (s : String) : Bool :=
  s.data.any (fun c => !(c = '-' || c.isDigit))

/-- Numeric value of a list of decimal digit characters. -/
def digitsToNat (cs : List Char) : Nat :=
  cs.foldl (fun n c => 10 * n + (c.toNat - '0'.toNat)) 0

/-- Python `int()` restricted to strings of minus signs and digits (the
only strings the join decoder can pass to it, since anything else goes to
the float branch): it succeeds exactly on an optional single leading
minus followed by one or more digits. -/
def pyIntParse (s : String) : Option Int :=
  match s.data with
  | [] => none
  | '-' :: rest =>
      if rest ≠ [] ∧ rest.all Char.isDigit then
        some (-(Int.ofNat (digitsToNat rest)))
      else none
  | cs =>
      if cs.all Char.isDigit then some (Int.ofNat (digitsToNat cs))
      else none

/-- Embedding of the per-tag decoding in `JoinWithTable._parse_response`
(flow.py:237-246).  `pf` is the external Python `float` builtin, modelled
as an oracle from the textual value to the parsed token (`none` when
`float()` raises).  `S` and `BOOL` values pass through unchanged; an `N`
value in which `[^-0-9]` finds a match is passed to `float`, otherwise to
`int` (a non-string `N` value makes the regex search raise); any other
tag raises `Unsupported type`. -/
def decodeTagVal (pf : String → Option String) (typ : String) (v : JPrim) :
    Except Unit PVal :=
  if typ = "S" ∨ typ = "BOOL" then .ok (.raw v)
  else if typ = "N" then
    match v with
    | .jstr s =>
        if hasNonIntChar s then
          match pf s with
          | some t => .ok (.pfloat t)
          | none => .error ()
        else
          match pyIntParse s with
          | some n => .ok (.pint n)
          | none => .error ()
    | _ => .error ()
  else .error ()

/-- The inner loop of `_parse_response` over one attribute's
`{type-tag: value}` mapping: `val` starts as `None` and each entry
overwrites it; a decoding error aborts the whole parse. -/
def parseAttr (pf : String → Option String) :
    List (String × JPrim) → Option PVal → Except Unit (Option PVal)
  | [], val => .ok val
  | (typ, v) :: rest, _ =>
      match decodeTagVal pf typ v with
      | .error e => .error e
      | .ok pv => parseAttr pf rest (some pv)

/-- Embedding of `JoinWithTable._parse_response` (flow.py:233-248) at the
level of the decoded `Item` object: a list of (attribute name,
`{type-tag: value}`) pairs in iteration order, each attribute's value
replaced by its decoded value. -/
def parseResponse (pf : String → Option String) :
    List (String × List (String × JPrim)) →
    Except Unit (List (String × Option PVal))
  | [] => .ok []
  | (name, tv) :: rest =>
      match parseAttr pf tv none with
      | .error e => .error e
      | .ok val =>
          match parseResponse pf rest with
          | .error e => .error e
          | .ok out => .ok ((name, val) :: out)

/-- One run of `JoinWithTable._worker` (flow.py:250-278) over the jobs
dequeued before the termination marker.  Each job carries the element and
its already-awaited response: the status code and, for a 200 status, the
body's `Item` object.  The result is the list of joined elements
forwarded downstream, in order, plus whether the worker aborted (once it
aborts, no further job is processed).  `if response_object:` skips both a
404 response (`None`) and an empty decoded object. -/
def joinWorkerRun {α : Type} (pf : String → Option String)
    (join : α → List (String × Option PVal) → α) :
    List (α × Nat × List (String × List (String × JPrim))) →
    List α × Bool
  | [] => ([], false)
  | (el, status, item) :: rest =>
      if status = 200 then
        match parseResponse pf item with
        | .error _ => ([], true)
        | .ok obj =>
            if obj.isEmpty then joinWorkerRun pf join rest
            else
              match joinWorkerRun pf join rest with
              | (outs, aborted) => (join el obj :: outs, aborted)
      else if status = 404 then joinWorkerRun pf join rest
      else ([], true)

/-- What `JoinWithTable.do` can raise before processing an element. -/
inductive JoinDoErr where
  | workerExc
  | alreadyTerminated
deriving Repr, DecidableEq

/-- Embedding of the entry check of `JoinWithTable.do` (flow.py:287-293)
after lazy initialization: if the worker task is done, awaiting it
re-raises its exception if it failed, and otherwise the method raises
`JoinWithTable worker has already terminated`; only with the worker still
running is the element enqueued as a job. -/
def joinDo {α : Type} (ws : WorkerState) (q : List (QElem α))
    (el : QElem α) : Except JoinDoErr (List (QElem α)) :=
  match ws with
  | .doneExc => .error .workerExc
  | .doneOk => .error .alreadyTerminated
  | .running => .ok (q ++ [el])

/-- The float oracle used in concrete instances: `float()` succeeds and
its result is represented by the textual value itself. -/
def pfId (s : String) : Option String := some s

/-! ## Theorems -/

/-- `specChain` always roots the result at the current node. -/
theorem specChain_id (cur : Nat) (steps : List Step) (t : NodeTree)
    (h : specChain cur steps = some t) : t.id = cur := by
  cases steps with
  | nil =>
      rw [specChain] at h
      cases h
      rfl
  | cons s rest =>
      cases s with
      | node j =>
          rw [specChain] at h
          cases hc : specChain j rest with
          | none => rw [hc] at h; cases h
          | some u => rw [hc] at h; cases h; rfl
      | seq s' =>
          rw [specChain] at h
          cases hb : specBuild s' with
          | none => rw [hb] at h; cases h
          | some tb =>
              cases hc : specChain cur rest with
              | none => rw [hb, hc] at h; cases h
              | some u => rw [hb, hc] at h; cases h; rfl

theorem withPre_nil (t : NodeTree) : NodeTree.withPre [] t = t := by
  cases t
  simp [NodeTree.withPre]

/-- The builder loop agrees with the spec-side chaining up to the
already-accumulated outlets, and `build_flow` agrees with `specBuild`;
proved simultaneously by strong induction on the size of the step list. -/
theorem build_equiv_aux : ∀ (n : Nat) (steps : List Step), sizeOf steps ≤ n →
    (build_flow steps = specBuild steps) ∧
    (∀ (cur : Nat) (acc : List NodeTree),
      chainLoop cur acc steps = (specChain cur steps).map (NodeTree.withPre acc.reverse)) := by
  intro n
  induction n with
  | zero =>
      intro steps h
      cases steps with
      | nil =>
          refine ⟨by rw [build_flow, specBuild], ?_⟩
          intro cur acc
          rw [chainLoop, specChain]
          simp [NodeTree.withPre]
      | cons s rest => simp at h
  | succ m ih =>
      intro steps h
      cases steps with
      | nil =>
          refine ⟨by rw [build_flow, specBuild], ?_⟩
          intro cur acc
          rw [chainLoop, specChain]
          simp [NodeTree.withPre]
      | cons s rest =>
          have hrest : sizeOf rest ≤ m := by
            have hs : 1 ≤ sizeOf s := by cases s <;> simp
            simp at h
            omega
          cases s with
          | node j =>
              have IH2 := (ih rest hrest).2
              constructor
              · rw [build_flow, specBuild, IH2 j []]
                cases hc : specChain j rest with
                | none => rfl
                | some t => simp [withPre_nil]
              · intro cur acc
                rw [chainLoop, specChain, IH2 j []]
                cases hc : specChain j rest with
                | none => rfl
                | some t =>
                    cases t with
                    | mk i outs => simp [NodeTree.withPre]
          | seq s' =>
              have hs' : sizeOf s' ≤ m := by simp at h; omega
              have IH1 := (ih s' hs').1
              have IH2 := (ih rest hrest).2
              constructor
              · rw [build_flow, specBuild]
              · intro cur acc
                rw [chainLoop, specChain, IH1]
                cases hb : specBuild s' with
                | none => rfl
                | some t =>
                    dsimp only
                    rw [IH2 cur (t :: acc)]
                    cases hc : specChain cur rest with
                    | none => rfl
                    | some u =>
                        cases u with
                        | mk i outs =>
                            simp [NodeTree.withPre, NodeTree.outlets]
                            exact specChain_id cur rest _ hc

/-- C1: for every nested pipeline definition, `build_flow` walks the
top-level sequence in order chaining node to node, attaches a nested
sequence's recursively built root as an additional outlet of the current
node (so branches are sibling outlets of the branch point, not
descendants of the branch), and returns the first node of the top-level
sequence as the root: the builder agrees with the spec-side description
`specBuild` on every input, and the returned root is the first node. -/
theorem c1_build_flow_refines_spec :
    (∀ steps : List Step, build_flow steps = specBuild steps) ∧
    (∀ (i : Nat) (rest : List Step) (t : NodeTree),
      build_flow (Step.node i :: rest) = some t → t.id = i) := by
  have hmain : ∀ steps : List Step, build_flow steps = specBuild steps :=
    fun steps => (build_equiv_aux (sizeOf steps) steps le_rfl).1
  refine ⟨hmain, ?_⟩
  intro i rest t h
  rw [hmain, specBuild] at h
  exact specChain_id i rest t h

/-- Witness for C1 at the concrete definition [1, [2], 3]: node 2's
branch is a sibling outlet of node 1 next to the continuation node 3,
and the returned root is node 1. -/
theorem c1_witness :
    build_flow [Step.node 1, Step.seq [Step.node 2], Step.node 3] =
      some (NodeTree.mk 1 [NodeTree.mk 2 [], NodeTree.mk 3 []]) ∧
    (NodeTree.mk 1 [NodeTree.mk 2 [], NodeTree.mk 3 []]).id = 1 := by
  have h : build_flow [Step.node 1, Step.seq [Step.node 2], Step.node 3] =
      some (NodeTree.mk 1 [NodeTree.mk 2 [], NodeTree.mk 3 []]) := by
    simp [build_flow, chainLoop]
  exact ⟨h, c1_build_flow_refines_spec.2 1 _ _ h⟩

/-- C8: the claim says `build_flow` on an empty sequence reports the
configuration error without raising.  The code prints the report but then
still evaluates `steps[0]` on the empty list, which raises `IndexError`;
the embedding therefore yields no tree for the empty input. -/
theorem c8_empty_build_flow_raises : build_flow ([] : List Step) = none := by
  rw [build_flow]

theorem runData_reduce_ok {α β : Type} (b : β) (f : β → α → Except Unit β)
    (x : α) (b' : β) (h : f b x = .ok b') :
    runData (.reduce b f) x = (.reduce b' f, false) := by
  unfold runData
  rw [doData, h]

theorem runData_reduce_err {α β : Type} (b : β) (f : β → α → Except Unit β)
    (x : α) (e : Unit) (h : f b x = .error e) :
    runData (.reduce b f) x = (.reduce b f, true) := by
  unfold runData
  rw [doData, h]

theorem runData_map_ok {α β : Type} (f : α → Except Unit α)
    (comb : Option β → Option β → Option β) (outs : List (PNode α β))
    (x y : α) (h : f x = .ok y) :
    runData (.map f comb outs) x =
      (.map f comb (runDataList outs y).1, (runDataList outs y).2) := by
  unfold runData runDataList
  rw [doData, h]

theorem runData_map_err {α β : Type} (f : α → Except Unit α)
    (comb : Option β → Option β → Option β) (outs : List (PNode α β))
    (x : α) (e : Unit) (h : f x = .error e) :
    runData (.map f comb outs) x = (.map f comb outs, true) := by
  unfold runData
  rw [doData, h]

theorem runData_flatMap_ok {α β : Type} (f : α → Except Unit (List α))
    (comb : Option β → Option β → Option β) (outs : List (PNode α β))
    (x : α) (items : List α) (h : f x = .ok items) :
    runData (.flatMap f comb outs) x =
      (.flatMap f comb (runItems outs items).1, (runItems outs items).2) := by
  unfold runData runItems
  rw [doData, h]

theorem runData_flatMap_err {α β : Type} (f : α → Except Unit (List α))
    (comb : Option β → Option β → Option β) (outs : List (PNode α β))
    (x : α) (e : Unit) (h : f x = .error e) :
    runData (.flatMap f comb outs) x = (.flatMap f comb outs, true) := by
  unfold runData
  rw [doData, h]

theorem runData_filter_true {α β : Type} (f : α → Except Unit Bool)
    (comb : Option β → Option β → Option β) (outs : List (PNode α β))
    (x : α) (h : f x = .ok true) :
    runData (.filter f comb outs) x =
      (.filter f comb (runDataList outs x).1, (runDataList outs x).2) := by
  unfold runData runDataList
  rw [doData, h]
  rfl

theorem runData_filter_false {α β : Type} (f : α → Except Unit Bool)
    (comb : Option β → Option β → Option β) (outs : List (PNode α β))
    (x : α) (h : f x = .ok false) :
    runData (.filter f comb outs) x = (.filter f comb outs, false) := by
  unfold runData
  rw [doData, h]
  simp

theorem runDataList_nil {α β : Type} (x : α) :
    runDataList ([] : List (PNode α β)) x = ([], false) := by
  unfold runDataList
  rw [doDataList]

theorem runDataList_cons {α β : Type} (n : PNode α β)
    (rest : List (PNode α β)) (x : α) :
    runDataList (n :: rest) x =
      ((runData n x).1 :: (runDataList rest x).1,
        (runData n x).2 || (runDataList rest x).2) := by
  unfold runData runDataList
  rw [doDataList]

theorem runItems_nil {α β : Type} (ns : List (PNode α β)) :
    runItems ns ([] : List α) = (ns, false) := by
  unfold runItems
  rw [doItems]

theorem runItems_cons {α β : Type} (ns : List (PNode α β)) (it : α)
    (its : List α) :
    runItems ns (it :: its) =
      (if (runDataList ns it).2 then ((runDataList ns it).1, true)
       else runItems (runDataList ns it).1 its) := by
  unfold runItems runDataList
  rw [doItems]
  cases hdl : doDataList ns it with
  | mk v hp =>
      cases v with
      | mk a b => cases b <;> rfl

theorem termFold_eq_foldlM {α β : Type}
    (comb : Option β → Option β → Option β) (os : List (PNode α β)) :
    ∀ r, termFold comb r os =
      os.foldlM (fun acc n => (doTerm n).map (fun ro => comb acc ro)) r := by
  induction os with
  | nil => intro r; rw [termFold]; rfl
  | cons o os ih =>
      intro r
      rw [termFold, List.foldlM_cons]
      cases h : doTerm o with
      | error e => rfl
      | ok ro => exact ih (comb r ro)

theorem termDispatch_eq_specTermSeq {α β : Type}
    (comb : Option β → Option β → Option β) (o : PNode α β)
    (os : List (PNode α β)) :
    termDispatch comb (o :: os) = specTermSeq comb o os := by
  rw [termDispatch, specTermSeq]
  cases h : doTerm o with
  | error e => rfl
  | ok r0 => exact termFold_eq_foldlM comb os r0

/-- C2 counterexample: a `JoinWithTable` node with one outlet does not
process the termination marker as a sequential outlet fold.  Its
overridden `do` (flow.py:295-297) enqueues the marker and awaits its
worker, which breaks without touching the outlets, so the caller
receives `None` — not the outlet's termination result `some 5` that the
claimed fold would produce. -/
theorem c2_counterexample :
    doTerm (PNode.join (α := Int) (β := Int) .running (.ok ())
      [PNode.reduce 5 (fun b _ => .ok b)]) = .ok none ∧
    doTerm (PNode.reduce (α := Int) (β := Int) 5 (fun b _ => .ok b))
      = .ok (some 5) ∧
    (Except.ok none : Except Unit (Option Int)) ≠ .ok (some 5) := by
  refine ⟨by rw [doTerm], by rw [doTerm], ?_⟩
  intro h
  exact Option.noConfusion (Except.ok.inj h)

/-- C2 amended: every `Map`, `Filter` or `FlatMap` node with at least
one outlet — the node kinds whose termination handling goes through the
shared `Flow._do_downstream` path — processes the termination marker by
awaiting outlet 0's result and then folding in each further outlet's
result, in registration order, with combine(accumulated, next),
returning the final folded result to its own caller; a `JoinWithTable`
node instead drains its worker and returns `None` to its caller without
consulting its outlets (`Reduce` never has outlets). -/
theorem c2_termination_fold_amended (α β : Type)
    (comb : Option β → Option β → Option β) (o : PNode α β)
    (os : List (PNode α β)) :
    (∀ f, doTerm (.map f comb (o :: os)) = specTermSeq comb o os) ∧
    (∀ f, doTerm (.filter f comb (o :: os)) = specTermSeq comb o os) ∧
    (∀ f, doTerm (.flatMap f comb (o :: os)) = specTermSeq comb o os) ∧
    (∀ outs : List (PNode α β),
      doTerm (.join .running (.ok ()) outs) = .ok none) := by
  refine ⟨fun f => ?_, fun f => ?_, fun f => ?_, fun outs => by rw [doTerm]⟩ <;>
    rw [doTerm, termDispatch_eq_specTermSeq]

/-- C9 counterexample: a `Map` node with zero outlets does not return a
locally held result on termination; `Flow._do_downstream` evaluates
`self._outlets[0]` unconditionally, which raises `IndexError` on the
empty outlet list. -/
theorem c9_counterexample :
    doTerm (PNode.map (α := Int) (β := Int)
      (fun a => .ok a) (fun _ _ => none) []) = .error () := by
  rw [doTerm, termDispatch]

/-- C9 amended: a `Reduce` node (which always has zero outlets) returns
its locally held accumulator as its termination result without failing;
a `Map`, `Filter` or `FlatMap` node with zero outlets raises an index
error when it processes the termination marker, because the shared
dispatch path `Flow._do_downstream` accesses outlet 0 unconditionally;
a `JoinWithTable` node with zero outlets processes the marker without
error and without touching its outlets: its overridden `do` drains the
worker and returns `None`. -/
theorem c9_zero_outlets_amended (α β : Type) :
    (∀ (b : β) (f : β → α → Except Unit β),
      doTerm (.reduce b f) = .ok (some b)) ∧
    (∀ (f : α → Except Unit α) (comb : Option β → Option β → Option β),
      doTerm (.map f comb []) = .error ()) ∧
    (∀ (f : α → Except Unit Bool) (comb : Option β → Option β → Option β),
      doTerm (.filter f comb []) = .error ()) ∧
    (∀ (f : α → Except Unit (List α)) (comb : Option β → Option β → Option β),
      doTerm (.flatMap f comb []) = .error ()) ∧
    (doTerm (.join .running (.ok ()) ([] : List (PNode α β))) = .ok none) := by
  refine ⟨fun b f => ?_, fun f comb => ?_, fun f comb => ?_, fun f comb => ?_,
    by rw [doTerm]⟩
  · rw [doTerm]
  all_goals rw [doTerm, termDispatch]

theorem feedAll_reduce_pure {α β : Type} (g : β → α → β) (es : List α) :
    ∀ b : β, feedAll (.reduce b (fun acc a => Except.ok (g acc a))) es
      = (.reduce (es.foldl g b) (fun acc a => Except.ok (g acc a)), false) := by
  induction es with
  | nil => intro b; rw [feedAll, List.foldl_nil]
  | cons x xs ih =>
      intro b
      rw [feedAll, runData_reduce_ok b _ x (g b x) rfl, List.foldl_cons]
      exact ih (g b x)

/-- C4: a `Reduce` node folds its combine function over the ordinary
elements strictly in arrival order, and on the termination marker returns
the current accumulator without further mutation; in particular
`Reduce(0, add)` fed 1, 2, 3 and then terminated yields 6. -/
theorem c4_reduce_folds_in_order (α β : Type) (g : β → α → β) (b : β)
    (es : List α) :
    (feedAll (.reduce b (fun acc a => Except.ok (g acc a))) es
      = (.reduce (es.foldl g b) (fun acc a => Except.ok (g acc a)), false)) ∧
    (doTerm (.reduce (es.foldl g b) (fun acc a => Except.ok (g acc a)))
      = .ok (some (es.foldl g b))) ∧
    (feedAll (.reduce (0 : Int) (fun acc a => Except.ok (acc + a))) [1, 2, 3]
      = (.reduce 6 (fun acc a => Except.ok (acc + a)), false) ∧
     doTerm (.reduce (6 : Int) (fun acc a => Except.ok (acc + a)))
      = .ok (some 6)) := by
  refine ⟨feedAll_reduce_pure g es b, by rw [doTerm], ?_, by rw [doTerm]⟩
  have h := feedAll_reduce_pure (fun acc a : Int => acc + a) [1, 2, 3] 0
  simpa using h

theorem runData_recorder {α : Type} (L : List α) (x : α) :
    runData (recorder L) x = (recorder (L ++ [x]), false) :=
  runData_reduce_ok L _ x (L ++ [x]) rfl

/-- Forwarding a list of items one at a time to a single recorder outlet
appends exactly those items, in order. -/
theorem runItems_recorder {α : Type} (items : List α) :
    ∀ L, runItems [recorder L] items = ([recorder (L ++ items)], false) := by
  induction items with
  | nil => intro L; rw [runItems_nil]; simp
  | cons it its ih =>
      intro L
      rw [runItems_cons, runDataList_cons, runDataList_nil, runData_recorder]
      simp only [Bool.or_false]
      rw [if_neg (by simp)]
      rw [ih (L ++ [it])]
      simp

/-- Forwarding items one at a time through a map node that raises on
`bad` items, with a recorder below it: the recorder receives exactly the
items before the first bad one (fail-fast), and the error flag is set
exactly when some item is bad. -/
theorem runItems_failchain {α : Type} (bad : α → Bool)
    (comb' : Option (List α) → Option (List α) → Option (List α))
    (items : List α) :
    ∀ L, runItems
        [.map (fun a => if bad a then Except.error () else Except.ok a) comb'
          [recorder L]] items
      = ([.map (fun a => if bad a then Except.error () else Except.ok a) comb'
            [recorder (L ++ items.takeWhile (fun a => !bad a))]],
          items.any bad) := by
  induction items with
  | nil => intro L; rw [runItems_nil]; simp
  | cons it its ih =>
      intro L
      cases hb : bad it with
      | true =>
          have hf : (fun a => if bad a then Except.error () else Except.ok a) it
              = (Except.error () : Except Unit α) := by simp [hb]
          rw [runItems_cons, runDataList_cons, runDataList_nil,
              runData_map_err _ _ _ _ () hf]
          simp [hb]
      | false =>
          have hf : (fun a => if bad a then Except.error () else Except.ok a) it
              = (Except.ok it : Except Unit α) := by simp [hb]
          rw [runItems_cons, runDataList_cons, runDataList_nil,
              runData_map_ok _ _ _ _ it hf, runDataList_cons, runDataList_nil,
              runData_recorder]
          simp only [Bool.or_false]
          rw [if_neg (by simp)]
          rw [ih (L ++ [it])]
          simp [hb]

/-- C5: a `FlatMap` node treats its function's return value as an
ordered sequence and forwards each item individually, in order (first
conjunct: a recorder outlet receives exactly the items, in order); if
forwarding an item raises, the loop aborts immediately and no later item
is forwarded (second conjunct: with a raising outlet, the recorder below
it holds exactly the items before the first bad one and the error flag is
set exactly when a bad item exists); `FlatMap(x => [x, x])` fed 1 then 2
forwards 1, 1, 2, 2 in that order (third conjunct). -/
theorem c5_flatmap_in_order_fail_fast (α : Type) :
    (∀ (g : α → List α)
        (comb : Option (List α) → Option (List α) → Option (List α))
        (L : List α) (x : α),
      runData (.flatMap (fun a => Except.ok (g a)) comb [recorder L]) x
        = (.flatMap (fun a => Except.ok (g a)) comb [recorder (L ++ g x)],
            false)) ∧
    (∀ (g : α → List α) (bad : α → Bool)
        (comb comb' : Option (List α) → Option (List α) → Option (List α))
        (L : List α) (x : α),
      runData (.flatMap (fun a => Except.ok (g a)) comb
          [.map (fun a => if bad a then Except.error () else Except.ok a)
            comb' [recorder L]]) x
        = (.flatMap (fun a => Except.ok (g a)) comb
            [.map (fun a => if bad a then Except.error () else Except.ok a)
              comb' [recorder (L ++ (g x).takeWhile (fun a => !bad a))]],
            (g x).any bad)) ∧
    (feedAll (.flatMap (fun a => Except.ok [a, a]) (fun _ _ => none)
        [recorder ([] : List Int)]) [1, 2]
      = (.flatMap (fun a => Except.ok [a, a]) (fun _ _ => none)
          [recorder [1, 1, 2, 2]], false)) := by
  have p1 : ∀ (γ : Type) (g : γ → List γ)
      (comb : Option (List γ) → Option (List γ) → Option (List γ))
      (L : List γ) (x : γ),
      runData (.flatMap (fun a => Except.ok (g a)) comb [recorder L]) x
        = (.flatMap (fun a => Except.ok (g a)) comb [recorder (L ++ g x)],
            false) := by
    intro γ g comb L x
    rw [runData_flatMap_ok _ _ _ _ (g x) rfl, runItems_recorder]
  refine ⟨p1 α, ?_, ?_⟩
  · intro g bad comb comb' L x
    rw [runData_flatMap_ok _ _ _ _ (g x) rfl, runItems_failchain]
  · have e1 := p1 Int (fun a => [a, a]) (fun _ _ => none) [] 1
    have e2 := p1 Int (fun a => [a, a]) (fun _ _ => none) [1, 1] 2
    simp only [List.nil_append] at e1
    simp only [feedAll, e1, e2]
    norm_num

/-- C3: if processing an element raises, the worker records the failure,
drains at most one further pending entry, resolves the termination cell
with no value and stops (first two conjuncts: a cleanly processed prefix
leaves the loop running, and the failing element produces exactly that
stopped state with `rest.tail` remaining); the recorded failure is raised
at the next `await_termination` (third conjunct) and at the next `emit`,
which checks before blocking on the queue and again after enqueuing
(last three conjuncts). -/
theorem c3_source_deferred_failure (α β : Type)
    (comb : Option β → Option β → Option β) :
    (∀ (outs : List (PNode α β)) (es : List α) (rest : List (QElem α)),
      (feedList outs es).2 = false →
      runLoop comb outs (es.map QElem.data ++ rest)
        = runLoop comb (feedList outs es).1 rest) ∧
    (∀ (outs : List (PNode α β)) (a : α) (rest : List (QElem α)),
      (runDataList outs a).2 = true →
      runLoop comb outs (QElem.data a :: rest)
        = ⟨(runDataList outs a).1, true, some none, rest.tail, true⟩) ∧
    (∀ (ns : List (PNode α β)) (rem : List (QElem α)),
      awaitTermination ⟨ns, true, some none, rem, true⟩ = .error ()) ∧
    (∀ (q : List (QElem α)) (x : QElem α) (b : Bool),
      emitStep true q x b = (q, true)) ∧
    (∀ (q : List (QElem α)) (x : QElem α),
      emitStep false q x true = (q ++ [x], true)) ∧
    (∀ (q : List (QElem α)) (x : QElem α),
      emitStep false q x false = (q ++ [x], false)) := by
  refine ⟨?_, ?_, ?_, ?_, ?_, ?_⟩
  · intro outs es
    induction es generalizing outs with
    | nil =>
        intro rest h
        rw [feedList]
        simp
    | cons x xs ih =>
        intro rest h
        rw [feedList] at h
        simp only [List.map_cons, List.cons_append]
        rw [runLoop]
        cases hx : runDataList outs x with
        | mk outs' e =>
            rw [hx] at h
            cases e with
            | true => simp at h
            | false =>
                rw [feedList, hx]
                exact ih outs' rest h
  · intro outs a rest h
    rw [runLoop]
    cases hx : runDataList outs a with
    | mk outs' e =>
        rw [hx] at h
        cases h
        rfl
  · intro ns rem
    rw [awaitTermination]
    rfl
  · intro q x b
    rw [emitStep]
    rfl
  · intro q x
    rw [emitStep]
    rfl
  · intro q x
    rw [emitStep]
    rfl

/-- Witness for C3: a Source whose single Reduce outlet raises on the
element 2, fed 1, 2, 3, 4.  The prefix [1] processes cleanly, element 2
raises, exactly one further entry (3) is drained, entry 4 stays pending,
the cell resolves with no value, and the failure surfaces at
`await_termination` and at both check points of `emit`. -/
theorem c3_witness :
    (feedList [PNode.reduce (0 : Int) failOn2] [1]).2 = false ∧
    (runDataList [PNode.reduce (1 : Int) failOn2] 2).2 = true ∧
    runLoop (β := Int) (fun _ _ => none) [PNode.reduce 0 failOn2]
        [QElem.data 1, QElem.data 2, QElem.data 3, QElem.data 4]
      = ⟨[PNode.reduce 1 failOn2], true, some none, [QElem.data 4], true⟩ ∧
    awaitTermination (α := Int) (β := Int)
        ⟨[PNode.reduce 1 failOn2], true, some none, [QElem.data 4], true⟩
      = .error () ∧
    emitStep true [QElem.data (5 : Int)] (QElem.data 6) false
      = ([QElem.data 5], true) ∧
    emitStep false [QElem.data (5 : Int)] (QElem.data 6) true
      = ([QElem.data 5, QElem.data 6], true) := by
  have hth := c3_source_deferred_failure Int Int (fun _ _ => none)
  have hr1 : runDataList [PNode.reduce (0 : Int) failOn2] 1
      = ([PNode.reduce 1 failOn2], false) := by
    rw [runDataList_cons, runDataList_nil,
      runData_reduce_ok 0 failOn2 1 1 (by simp [failOn2])]
    rfl
  have hr2 : runDataList [PNode.reduce (1 : Int) failOn2] 2
      = ([PNode.reduce 1 failOn2], true) := by
    rw [runDataList_cons, runDataList_nil,
      runData_reduce_err 1 failOn2 2 () (by simp [failOn2])]
    rfl
  have hfeed : feedList [PNode.reduce (0 : Int) failOn2] [1]
      = ([PNode.reduce 1 failOn2], false) := by
    simp only [feedList, hr1]
  have h1 : (feedList [PNode.reduce (0 : Int) failOn2] [1]).2 = false := by
    rw [hfeed]
  have h2 : (runDataList [PNode.reduce (1 : Int) failOn2] 2).2 = true := by
    rw [hr2]
  have hpre := hth.1 [PNode.reduce 0 failOn2] [1]
    [QElem.data 2, QElem.data 3, QElem.data 4] h1
  simp only [List.map_cons, List.map_nil, List.cons_append,
    List.nil_append] at hpre
  have hfail := hth.2.1 [PNode.reduce 1 failOn2] 2
    [QElem.data 3, QElem.data 4] h2
  refine ⟨h1, h2, ?_, hth.2.2.1 _ _, hth.2.2.2.1 _ _ false,
    hth.2.2.2.2.1 _ _⟩
  rw [hpre, hfeed]
  rw [hfail, hr2]
  rfl

/-- C6 counterexample: "+5" consists of an optional leading sign followed
by digits, so the claim decodes it as the signed integer 5; but the
pattern `[^-0-9]` matches the plus sign, so the code passes the value to
`float` and produces a floating-point number, not a signed integer. -/
theorem c6_counterexample :
    decodeTagVal pfId "N" (.jstr "+5") = .ok (.pfloat "+5") ∧
    decodeTagVal pfId "N" (.jstr "+5") ≠ .ok (.pint 5) := by
  refine ⟨rfl, ?_⟩
  intro h
  exact PVal.noConfusion (Except.ok.inj h)

/-- C6 amended: a string or boolean tag passes through unchanged; a
numeric tag whose text contains any character other than a minus sign or
a digit (including a plus sign) is decoded by floating-point parsing; a
numeric tag whose text consists only of minus signs and digits is decoded
by integer parsing, which yields a signed integer exactly for an optional
single leading minus followed by one or more digits (e.g. "-12") and
raises otherwise (e.g. "1-2", ""); any other tag raises a fatal protocol
error. -/
theorem c6_join_decode_amended :
    (∀ (pf : String → Option String) (v : JPrim),
      decodeTagVal pf "S" v = .ok (.raw v)) ∧
    (∀ (pf : String → Option String) (v : JPrim),
      decodeTagVal pf "BOOL" v = .ok (.raw v)) ∧
    (∀ (pf : String → Option String) (s : String), hasNonIntChar s = true →
      decodeTagVal pf "N" (.jstr s)
        = match pf s with
          | some t => .ok (.pfloat t)
          | none => .error ()) ∧
    (∀ (pf : String → Option String) (s : String), hasNonIntChar s = false →
      decodeTagVal pf "N" (.jstr s)
        = match pyIntParse s with
          | some n => .ok (.pint n)
          | none => .error ()) ∧
    (pyIntParse "-12" = some (-12) ∧ pyIntParse "12" = some 12 ∧
      pyIntParse "1-2" = none ∧ pyIntParse "" = none ∧
      pyIntParse "-" = none) ∧
    (∀ (pf : String → Option String) (typ : String) (v : JPrim),
      typ ≠ "S" → typ ≠ "BOOL" → typ ≠ "N" →
      decodeTagVal pf typ v = .error ()) := by
  refine ⟨fun pf v => rfl, fun pf v => rfl,
    fun pf s h => ?_, fun pf s h => ?_, by decide,
    fun pf typ v h1 h2 h3 => ?_⟩
  · have he : decodeTagVal pf "N" (.jstr s)
        = if hasNonIntChar s then
            (match pf s with
              | some t => Except.ok (PVal.pfloat t)
              | none => Except.error ())
          else
            (match pyIntParse s with
              | some n => Except.ok (PVal.pint n)
              | none => Except.error ()) := rfl
    rw [he, h]
    rfl
  · have he : decodeTagVal pf "N" (.jstr s)
        = if hasNonIntChar s then
            (match pf s with
              | some t => Except.ok (PVal.pfloat t)
              | none => Except.error ())
          else
            (match pyIntParse s with
              | some n => Except.ok (PVal.pint n)
              | none => Except.error ()) := rfl
    rw [he, h]
    rfl
  · cases v with
    | jstr s => rw [decodeTagVal, if_neg (by simp [h1, h2]), if_neg h3]
    | jbool b =>
        rw [decodeTagVal, if_neg (by simp [h1, h2]), if_neg h3]
        exact fun s hs => JPrim.noConfusion hs

/-- Witness for C6 at concrete inputs: "+5" goes to floating-point
parsing, "-7" to integer parsing yielding -7, and the unknown tag "X"
raises. -/
theorem c6_witness :
    (hasNonIntChar "+5" = true ∧
      decodeTagVal pfId "N" (.jstr "+5") = .ok (.pfloat "+5")) ∧
    (hasNonIntChar "-7" = false ∧
      decodeTagVal pfId "N" (.jstr "-7") = .ok (.pint (-7))) ∧
    (("X" : String) ≠ "S" ∧ ("X" : String) ≠ "BOOL" ∧
      ("X" : String) ≠ "N" ∧
      decodeTagVal pfId "X" (.jstr "a") = .error ()) := by
  have hth := c6_join_decode_amended
  have h1 : hasNonIntChar "+5" = true := by decide
  have h2 : hasNonIntChar "-7" = false := by decide
  have hx1 : ("X" : String) ≠ "S" := by decide
  have hx2 : ("X" : String) ≠ "BOOL" := by decide
  have hx3 : ("X" : String) ≠ "N" := by decide
  exact ⟨⟨h1, hth.2.2.1 pfId "+5" h1⟩,
    ⟨h2, hth.2.2.2.1 pfId "-7" h2⟩,
    hx1, hx2, hx3, hth.2.2.2.2.2 pfId "X" (.jstr "a") hx1 hx2 hx3⟩

/-- C7 counterexample: a 200 response whose body decodes successfully —
to the empty record — yields NO joined output element, although the claim
promises exactly one joined output element for a success status with a
decodable record: `if response_object:` is false for an empty mapping, so
the element is dropped. -/
theorem c7_counterexample :
    parseResponse pfId ([] : List (String × List (String × JPrim)))
      = .ok [] ∧
    joinWorkerRun pfId (fun (el : Int) _ => el) [(7, 200, [])]
      = ([], false) ∧
    joinWorkerRun pfId (fun (el : Int) _ => el) [(7, 200, [])]
      ≠ ([7], false) := by
  refine ⟨rfl, rfl, ?_⟩
  intro h
  have h2 : ([] : List Int) = [7] := congrArg Prod.fst h
  exact List.noConfusion h2

/-- C7 amended: for each job the join worker processes, a 404 status
silently drops the element and continues (no output, not an error);
a 200 status whose body decodes to a non-empty record applies the user
join function to (element, record) and forwards exactly one joined
element downstream; a 200 status whose body decodes to an empty record
also drops the element; any other status aborts the worker, which
processes no further job. -/
theorem c7_join_worker_amended (α : Type) :
    (∀ (pf : String → Option String)
        (join : α → List (String × Option PVal) → α) (el : α)
        (item : List (String × List (String × JPrim)))
        (rest : List (α × Nat × List (String × List (String × JPrim)))),
      joinWorkerRun pf join ((el, 404, item) :: rest)
        = joinWorkerRun pf join rest) ∧
    (∀ (pf : String → Option String)
        (join : α → List (String × Option PVal) → α) (el : α)
        (item : List (String × List (String × JPrim)))
        (rest : List (α × Nat × List (String × List (String × JPrim))))
        (obj : List (String × Option PVal)),
      parseResponse pf item = .ok obj → obj ≠ [] →
      joinWorkerRun pf join ((el, 200, item) :: rest)
        = (join el obj :: (joinWorkerRun pf join rest).1,
            (joinWorkerRun pf join rest).2)) ∧
    (∀ (pf : String → Option String)
        (join : α → List (String × Option PVal) → α) (el : α)
        (item : List (String × List (String × JPrim)))
        (rest : List (α × Nat × List (String × List (String × JPrim)))),
      parseResponse pf item = .ok [] →
      joinWorkerRun pf join ((el, 200, item) :: rest)
        = joinWorkerRun pf join rest) ∧
    (∀ (pf : String → Option String)
        (join : α → List (String × Option PVal) → α) (el : α)
        (item : List (String × List (String × JPrim)))
        (rest : List (α × Nat × List (String × List (String × JPrim))))
        (status : Nat),
      status ≠ 200 → status ≠ 404 →
      joinWorkerRun pf join ((el, status, item) :: rest) = ([], true)) := by
  refine ⟨fun pf join el item rest => rfl,
    fun pf join el item rest obj hp hobj => ?_,
    fun pf join el item rest hp => ?_,
    fun pf join el item rest status h200 h404 => ?_⟩
  · have he : joinWorkerRun pf join ((el, 200, item) :: rest)
        = match parseResponse pf item with
          | .error _ => ([], true)
          | .ok obj =>
              if obj.isEmpty then joinWorkerRun pf join rest
              else
                match joinWorkerRun pf join rest with
                | (outs, aborted) => (join el obj :: outs, aborted) := rfl
    rw [he, hp]
    have hne : obj.isEmpty = false := by
      cases obj with
      | nil => exact absurd rfl hobj
      | cons a as => rfl
    dsimp only
    rw [hne]
    rfl
  · have he : joinWorkerRun pf join ((el, 200, item) :: rest)
        = match parseResponse pf item with
          | .error _ => ([], true)
          | .ok obj =>
              if obj.isEmpty then joinWorkerRun pf join rest
              else
                match joinWorkerRun pf join rest with
                | (outs, aborted) => (join el obj :: outs, aborted) := rfl
    rw [he, hp]
    rfl
  · have he : joinWorkerRun pf join ((el, status, item) :: rest)
        = if status = 200 then
            match parseResponse pf item with
            | .error _ => ([], true)
            | .ok obj =>
                if obj.isEmpty then joinWorkerRun pf join rest
                else
                  match joinWorkerRun pf join rest with
                  | (outs, aborted) => (join el obj :: outs, aborted)
          else if status = 404 then joinWorkerRun pf join rest
          else ([], true) := rfl
    rw [he, if_neg h200, if_neg h404]

/-- Witness for C7: a 200 response with the decodable one-attribute
record yields exactly the one joined element, and a 500 status aborts the
worker. -/
theorem c7_witness :
    parseResponse pfId [("a", [("S", JPrim.jstr "v")])]
      = .ok [("a", some (.raw (.jstr "v")))] ∧
    ([("a", some (PVal.raw (.jstr "v")))]
      : List (String × Option PVal)) ≠ [] ∧
    joinWorkerRun pfId (fun (el : Int) _ => el)
        [(7, 200, [("a", [("S", JPrim.jstr "v")])])] = ([7], false) ∧
    (500 : Nat) ≠ 200 ∧ (500 : Nat) ≠ 404 ∧
    joinWorkerRun pfId (fun (el : Int) _ => el) [(9, 500, [])]
      = ([], true) := by
  have hth := c7_join_worker_amended Int
  have hp : parseResponse pfId [("a", [("S", JPrim.jstr "v")])]
      = .ok [("a", some (.raw (.jstr "v")))] := rfl
  have hobj : ([("a", some (PVal.raw (.jstr "v")))]
      : List (String × Option PVal)) ≠ [] := by
    intro h
    exact List.noConfusion h
  have h200 : (500 : Nat) ≠ 200 := by decide
  have h404 : (500 : Nat) ≠ 404 := by decide
  refine ⟨hp, hobj, ?_, h200, h404,
    hth.2.2.2 pfId (fun el _ => el) 9 [] [] 500 h200 h404⟩
  rw [hth.2.1 pfId (fun el _ => el) 7 [("a", [("S", JPrim.jstr "v")])] []
    [("a", some (.raw (.jstr "v")))] hp hobj]
  rfl

/-- C10: invoking `JoinWithTable.do` after the background worker task has
completed does not process the element: if the worker exited with an
exception, awaiting it re-raises that exception to the caller; if it
exited normally, the "worker has already terminated" exception is raised
instead.  Only a running worker accepts the element into the job
queue. -/
theorem c10_join_do_after_termination (α : Type) :
    (∀ (q : List (QElem α)) (el : QElem α),
      joinDo .doneExc q el = .error .workerExc) ∧
    (∀ (q : List (QElem α)) (el : QElem α),
      joinDo .doneOk q el = .error .alreadyTerminated) ∧
    (∀ (q : List (QElem α)) (el : QElem α),
      joinDo .running q el = .ok (q ++ [el])) :=
  ⟨fun _ _ => rfl, fun _ _ => rfl, fun _ _ => rfl⟩
